import Mathlib

/-!
# Verification of the TradingView bar store and indicator engine

Shallow embedding of `tradingagents/dataflows/tradingview_db.py`,
`tradingview.py` and `tradingview_webhook.py`.

Modelling conventions:
* The SQLite table `market_data` is a list of `Bar`s in insertion order.
  The `UNIQUE(ticker, timestamp)` constraint is enforced by `insert_bar`
  (`INSERT OR IGNORE`), so reachable stores have no duplicate keys.
* SQLite `REAL` values are modelled as `ℚ`, `INTEGER` as `ℤ`, `TEXT` as
  `String`.  SQLite's BINARY collation compares UTF-8 bytes, which agrees
  with the lexicographic order on code points used by `String`'s
  `LinearOrder`.
* `ORDER BY timestamp` is modelled by insertion sort on the timestamp
  column; ties are impossible within one ticker because of the unique key.
* Exceptions are modelled with `Except`; a Python function that cannot
  raise is a total Lean function.
-/

/-!
## Kernel-computable string comparison

SQLite's BINARY collation compares strings bytewise, which on UTF-8 agrees
with the code-point lexicographic order of Lean's `String` order.  Core's
decision procedure for `String` `<` is defined by well-founded recursion
over byte positions, which the kernel cannot reduce on concrete input, so
the model uses a structurally recursive comparator, proved equivalent to
the `String` order below.
-/

/-- Lexicographic `≤` on code-point lists. -/
def charsLe : List Char → List Char → Bool
  | [], _ => true
  | _ :: _, [] => false
  | a :: as, b :: bs =>
    if a.toNat < b.toNat then true
    else if b.toNat < a.toNat then false
    else charsLe as bs

/-- Lexicographic `≤` on strings (SQLite BINARY collation). -/
def strLeb (a b : String) : Bool := charsLe a.data b.data

theorem charsLe_iff (l1 : List Char) :
    ∀ l2, charsLe l1 l2 = true ↔ ¬ List.Lex (· < ·) l2 l1 := by
  induction l1 with
  | nil =>
    intro l2
    apply iff_of_true
    · cases l2 <;> rfl
    · intro h; nomatch h
  | cons a as ih =>
    intro l2
    cases l2 with
    | nil =>
      apply iff_of_false
      · intro h; nomatch h
      · intro h; exact h List.Lex.nil
    | cons b bs =>
      by_cases hab : a.toNat < b.toNat
      · apply iff_of_true
        · show (if a.toNat < b.toNat then true
            else if b.toNat < a.toNat then false else charsLe as bs) = true
          rw [if_pos hab]
        · intro h
          cases h with
          | cons h2 => exact Nat.lt_irrefl _ hab
          | rel h2 => exact Nat.lt_asymm hab h2
      · by_cases hba : b.toNat < a.toNat
        · have hfalse : charsLe (a :: as) (b :: bs) = false := by
            show (if a.toNat < b.toNat then true
              else if b.toNat < a.toNat then false else charsLe as bs) = false
            rw [if_neg hab, if_pos hba]
          apply iff_of_false
          · rw [hfalse]
            exact Bool.false_ne_true
          · intro h
            exact h (List.Lex.rel hba)
        · have hev : a.toNat = b.toNat := Nat.le_antisymm
            (Nat.le_of_not_lt hba) (Nat.le_of_not_lt hab)
          have heq : a = b :=
            Char.ext (UInt32.eq_of_toBitVec_eq (BitVec.eq_of_toNat_eq hev))
          subst heq
          have hstep : charsLe (a :: as) (a :: bs) = charsLe as bs := by
            show (if a.toNat < a.toNat then true
              else if a.toNat < a.toNat then false else charsLe as bs) = _
            rw [if_neg (Nat.lt_irrefl _), if_neg (Nat.lt_irrefl _)]
          rw [hstep, ih bs]
          constructor
          · intro h hlex
            cases hlex with
            | cons h2 => exact h h2
            | rel h2 => exact Nat.lt_irrefl _ h2
          · intro h hlex
            exact h (List.Lex.cons hlex)

theorem strLeb_iff (a b : String) : strLeb a b = true ↔ a ≤ b := by
  constructor
  · intro h hlt
    exact (charsLe_iff a.data b.data).mp h (String.lt_iff_toList_lt.mp hlt)
  · intro h
    apply (charsLe_iff a.data b.data).mpr
    intro hlex
    exact h (String.lt_iff_toList_lt.mpr hlex)

/-- SQL `MIN` over two text values. -/
def sqlMin (a b : String) : String := if strLeb a b then a else b

/-- SQL `MAX` over two text values. -/
def sqlMax (a b : String) : String := if strLeb a b then b else a

/-- One row of the `market_data` table
(`tradingview_db.py`, `CREATE TABLE`). -/
structure Bar where
  ticker : String
  timestamp : String
  open_ : ℚ
  high : ℚ
  low : ℚ
  close : ℚ
  volume : ℤ
deriving DecidableEq

/-- The persisted table, in insertion (rowid) order. -/
abbrev Store := List Bar

/-- One row of the DataFrame produced by the `SELECT` in `query_ohlcv`
(the `ticker` column is not selected). -/
structure Row where
  timestamp : String
  open_ : ℚ
  high : ℚ
  low : ℚ
  close : ℚ
  volume : ℤ
deriving DecidableEq

/-- A pandas DataFrame: column names plus rows. -/
structure DataFrame where
  cols : List String
  rows : List Row
deriving DecidableEq

/-- Does the store already contain a row with this `(ticker, timestamp)` key? -/
def hasKey (st : Store) (tk ts : String) : Bool :=
  st.any (fun b => b.ticker == tk && b.timestamp == ts)

/-- `insert_bar` (`tradingview_db.py` lines 48-67): `INSERT OR IGNORE`
appends the row unless the `(ticker, timestamp)` unique key is already
present, in which case it is a silent no-op.  Totality of this function
models "never raises for duplicate keys". -/
def insert_bar (st : Store) (tk ts : String) (open_ high low close : ℚ)
    (volume : ℤ) : Store :=
  if hasKey st tk ts then st
  else st ++ [⟨tk, ts, open_, high, low, close, volume⟩]

/-- The stored row for a key, if any. -/
def lookupBar (st : Store) (tk ts : String) : Option Bar :=
  st.find? (fun b => b.ticker == tk && b.timestamp == ts)

/-- Projection of a table row onto the selected columns. -/
def toRow (b : Bar) : Row :=
  ⟨b.timestamp, b.open_, b.high, b.low, b.close, b.volume⟩

/-- The `WHERE` clause of `query_ohlcv`:
`ticker = ? AND timestamp >= ? AND timestamp <= ?`. -/
def rowMatch (tk s e : String) (b : Bar) : Bool :=
  b.ticker == tk && strLeb s b.timestamp && strLeb b.timestamp e

/-- `ORDER BY timestamp` comparison. -/
def rowLe (a b : Row) : Prop := a.timestamp ≤ b.timestamp

instance : DecidableRel rowLe := fun a b =>
  decidable_of_iff (strLeb a.timestamp b.timestamp = true) (strLeb_iff _ _)

instance : IsTotal Row rowLe := ⟨fun a b => le_total a.timestamp b.timestamp⟩

instance : IsTrans Row rowLe := ⟨fun _ _ _ h h' => le_trans h h'⟩

/-- Column names of the raw `SELECT` result (what an empty DataFrame keeps). -/
def rawCols : List String :=
  ["timestamp", "open", "high", "low", "close", "volume"]

/-- The yfinance column naming convention applied by the `rename`. -/
def renamedCols : List String :=
  ["Date", "Open", "High", "Low", "Close", "Volume"]

/-- `query_ohlcv` (`tradingview_db.py` lines 70-104): filter by ticker and
inclusive timestamp range, sort ascending by timestamp, and — only when the
result is non-empty — rename the columns to the yfinance convention.  An
empty result is returned as-is with the raw lowercase column names.
The `pd.to_datetime` conversion of the `Date` column (line 103) keeps the
timestamp's calendar point; rows here keep the timestamp string, and its
date part is recovered by `toDateStr` below. -/
def query_ohlcv (st : Store) (tk s e : String) : DataFrame :=
  let rows := List.insertionSort rowLe ((st.filter (rowMatch tk s e)).map toRow)
  if rows.isEmpty then ⟨rawCols, []⟩ else ⟨renamedCols, rows⟩

/-- The `{min, max, count}` summary of `get_date_range`. -/
structure RangeInfo where
  min : String
  max : String
  count : ℕ
deriving DecidableEq

/-- `get_date_range` (`tradingview_db.py` lines 117-131):
`SELECT MIN(timestamp), MAX(timestamp), COUNT(*) WHERE ticker = ?`;
`None` when the ticker has no rows (SQL `MIN` is `NULL` over zero rows). -/
def get_date_range (st : Store) (tk : String) : Option RangeInfo :=
  let ts := (st.filter (fun b => b.ticker == tk)).map Bar.timestamp
  match ts with
  | [] => none
  | t :: rest => some ⟨rest.foldl sqlMin t, rest.foldl sqlMax t, (t :: rest).length⟩

/-!
## Calendar dates

`datetime.date` arithmetic used by `get_indicators`: `relativedelta(days=n)`
subtraction is `n` applications of "previous calendar day", and `datetime`
comparison is lexicographic on `(year, month, day)`.  Python dates satisfy
`year ≥ 1` (`datetime.MINYEAR`); going below raises `OverflowError`, which
the theorems exclude through a positivity hypothesis on the year.
-/

/-- A calendar date. -/
structure Date where
  y : ℕ
  m : ℕ
  d : ℕ
deriving DecidableEq

/-- Gregorian leap year. -/
def isLeap (y : ℕ) : Bool :=
  (y % 4 == 0 && y % 100 != 0) || y % 400 == 0

/-- Days in a Gregorian month. -/
def daysInMonth (y m : ℕ) : ℕ :=
  if m = 2 then (if isLeap y then 29 else 28)
  else if m = 4 ∨ m = 6 ∨ m = 9 ∨ m = 11 then 30
  else 31

/-- The previous calendar day (`dt - relativedelta(days=1)`). -/
def predDate (x : Date) : Date :=
  if 1 < x.d then ⟨x.y, x.m, x.d - 1⟩
  else if 1 < x.m then ⟨x.y, x.m - 1, daysInMonth x.y (x.m - 1)⟩
  else ⟨x.y - 1, 12, 31⟩

/-- `dt - relativedelta(days=k)`. -/
def subDays (x : Date) (k : ℕ) : Date := predDate^[k] x

/-- Order-embedding of a date into `ℕ`.  Because every date in play has
`m ≤ 12 < 100` and `d ≤ 31 < 100`, comparing keys is the lexicographic
`(y, m, d)` comparison that Python `datetime` uses. -/
def dateKey (x : Date) : ℕ := x.y * 10000 + x.m * 100 + x.d

/-- `datetime` comparison `a <= b`. -/
def dateLe (a b : Date) : Prop := dateKey a ≤ dateKey b

/-- `datetime` comparison `a < b`. -/
def dateLt (a b : Date) : Prop := dateKey a < dateKey b

instance (a b : Date) : Decidable (dateLe a b) :=
  inferInstanceAs (Decidable (dateKey a ≤ dateKey b))

instance (a b : Date) : Decidable (dateLt a b) :=
  inferInstanceAs (Decidable (dateKey a < dateKey b))

/-- The decimal digit character for `n % 10`-style values. -/
def digitChar10 (n : ℕ) : Char :=
  match n with
  | 0 => '0' | 1 => '1' | 2 => '2' | 3 => '3' | 4 => '4'
  | 5 => '5' | 6 => '6' | 7 => '7' | 8 => '8' | _ => '9'

/-- Decimal rendering of a natural number, with explicit fuel so that the
definition is structurally recursive and kernel-reducible.  `natStr` always
supplies enough fuel (`n` needs at most `n + 1` digits). -/
def natStrAux : ℕ → ℕ → String
  | 0, _ => ""
  | fuel + 1, n =>
    if n < 10 then (digitChar10 n).toString
    else natStrAux fuel (n / 10) ++ (digitChar10 (n % 10)).toString

/-- Decimal rendering of a natural number. -/
def natStr (n : ℕ) : String := natStrAux (n + 1) n

/-- Zero-padded two-digit rendering (`strftime` `%m`, `%d`). -/
def pad2 (n : ℕ) : String :=
  if n < 10 then "0" ++ natStr n else natStr n

/-- Zero-padded four-digit rendering (`strftime` `%Y`; zero-padding only
matters for years below 1000, which never arise in the theorems). -/
def pad4 (n : ℕ) : String :=
  if n < 10 then "000" ++ natStr n
  else if n < 100 then "00" ++ natStr n
  else if n < 1000 then "0" ++ natStr n
  else natStr n

/-- `dt.strftime("%Y-%m-%d")`. -/
def dateStr (x : Date) : String :=
  pad4 x.y ++ "-" ++ pad2 x.m ++ "-" ++ pad2 x.d

/-- Numeric value of a decimal digit character. -/
def charVal (c : Char) : ℕ := c.toNat - '0'.toNat

/-- `datetime.strptime(s, "%Y-%m-%d")` on the canonical zero-padded form:
exactly `YYYY-MM-DD` with a valid month, a valid day for that month, and a
year of at least 1 (`datetime.MINYEAR`). -/
def parseYmdChars (l : List Char) : Option Date :=
  match l with
  | [y1, y2, y3, y4, '-', m1, m2, '-', d1, d2] =>
    if y1.isDigit && y2.isDigit && y3.isDigit && y4.isDigit &&
       m1.isDigit && m2.isDigit && d1.isDigit && d2.isDigit then
      let y := charVal y1 * 1000 + charVal y2 * 100 + charVal y3 * 10 + charVal y4
      let m := charVal m1 * 10 + charVal m2
      let d := charVal d1 * 10 + charVal d2
      if 1 ≤ y ∧ 1 ≤ m ∧ m ≤ 12 ∧ 1 ≤ d ∧ d ≤ daysInMonth y m then
        some ⟨y, m, d⟩
      else none
    else none
  | _ => none

/-- `datetime.strptime(s, "%Y-%m-%d")`, returning `none` where Python raises
`ValueError`. -/
def parseYmd (s : String) : Option Date := parseYmdChars s.data

/-- `pd.to_datetime(ts).strftime("%Y-%m-%d")`: the calendar date of an
ISO-8601 timestamp is its first ten characters.  On a non-ISO string
(where `pd.to_datetime` would raise) the string is returned unchanged;
well-formed stores never contain such timestamps. -/
def toDateStr (s : String) : String :=
  match parseYmdChars (s.data.take 10) with
  | some dt => dateStr dt
  | none => s

/-!
## Numeric rendering and rounding

`DataFrame.round(2)` is numpy's round-half-to-even at two decimal places,
modelled over `ℚ`; `str(val)` is modelled by an exact rational rendering
whose characters are only digits, `-` and `/`, so it can never collide with
the `N/A` sentinels.
-/

/-- Round-half-to-even to an integer (numpy rounding). -/
def roundHalfEven (q : ℚ) : ℤ :=
  let f := ⌊q⌋
  let r := q - f
  if r < 1/2 then f
  else if 1/2 < r then f + 1
  else if f % 2 = 0 then f else f + 1

/-- `Series.round(2)`: round to two decimal places. -/
def round2 (q : ℚ) : ℚ := (roundHalfEven (q * 100) : ℚ) / 100

/-- A rational that is an exact multiple of `1/100`, i.e. has at most two
decimal places. -/
def isCent (q : ℚ) : Prop := ∃ z : ℤ, q = (z : ℚ) / 100

/-- Rounding the four price columns of one row
(`get_stock_data`, `tradingview.py` lines 34-37). -/
def roundRow (r : Row) : Row :=
  { r with open_ := round2 r.open_, high := round2 r.high,
           low := round2 r.low, close := round2 r.close }

/-- `str(val)` for a numeric indicator value, modelled as the exact rational
rendered as `[-]numerator/denominator`. -/
def renderVal (q : ℚ) : String :=
  (if q.num < 0 then "-" else "") ++ natStr q.num.natAbs ++ "/" ++ natStr q.den

/-- `"N/A" if pd.isna(val) else str(val)` (`tradingview.py` line 84). -/
def renderOpt : Option ℚ → String
  | none => "N/A"
  | some v => renderVal v

/-!
## SeriesReader: `get_stock_data` (`tradingview.py` lines 18-46)

The CSV/header rendering of the result is a pure formatting step outside
the core contract; the model returns the rounded DataFrame that the CSV is
printed from.
-/

/-- Error kinds of the read paths. -/
inductive FetchError where
  | invalidDate
  | noData
deriving DecidableEq

/-- `get_stock_data`: validate both dates with `strptime` (raising before
any storage access), query the range, raise `TradingViewDataNotAvailableError`
on an empty result, and otherwise round the four price columns to two
decimal places. -/
def get_stock_data (st : Store) (symbol start_date end_date : String) :
    Except FetchError DataFrame :=
  if (parseYmd start_date).isNone then .error .invalidDate
  else if (parseYmd end_date).isNone then .error .invalidDate
  else
    let df := query_ohlcv st symbol start_date end_date
    if df.rows.isEmpty then .error .noData
    else .ok ⟨df.cols, df.rows.map roundRow⟩

/-!
## IndicatorEngine: `get_indicators` (`tradingview.py` lines 49-101)

The indicator math itself lives in the borrowed `stockstats` library.
Modelled from the spec: the registrable indicator-formula abstraction of
§9 — a mapping from indicator name to a pure function from the
chronological price history to one (possibly undefined) value per bar;
`ss_df[indicator]` on an unregistered name raises, reported as the
`UnsupportedIndicator` error kind of §7.
-/

/-- An indicator formula: one optional value per bar of the fetched
history, `none` standing for a NaN ("N/A") result. -/
def Formula := {f : List Row → List (Option ℚ) // ∀ l, (f l).length = l.length}

/-- Modelled from the spec: the set of registered indicator formulas that
replaces the borrowed `stockstats` library (spec §9). -/
def Registry := List (String × Formula)

/-- Formula lookup by indicator name; `none` models the exception raised by
`ss_df[indicator]` for an unknown name. -/
def lookupReg (reg : Registry) (name : String) : Option Formula :=
  (reg.find? (fun p => p.1 == name)).map (fun p => p.2)

/-- Lookup in a Python dict built by iterating assignments: the *last*
binding of a key wins. -/
def dictGet (m : List (String × String)) (k : String) : Option String :=
  (m.reverse.find? (fun p => p.1 == k)).map (fun p => p.2)

/-- The fixed non-trading-day sentinel (`tradingview.py` line 91). -/
def sentinelNTD : String := "N/A: Not a trading day (weekend or holiday)"

/-- The day-by-day report loop (`tradingview.py` lines 87-93):

    while current_dt >= before:
        value = indicator_map.get(date_str, sentinel)
        ind_string += f"{date_str}: {value}\n"
        current_dt -= relativedelta(days=1)

The guard is the loop's real condition; the fuel argument only bounds the
recursion and is always called with `look_back_days + 1`:
`indLoop_unroll` proves the guard admits all `look_back_days + 1`
iterations, and `indLoop_guard_stops` proves the guard is already false
when the fuel runs out (for dates that stay at year ≥ 1, where Python date
arithmetic is defined), so the bounded recursion computes exactly what the
unbounded `while` computes. -/
def indLoop (imap : List (String × String)) (before : Date) :
    ℕ → Date → String
  | 0, _ => ""
  | f + 1, cur =>
    if dateLe before cur then
      dateStr cur ++ ": " ++ (dictGet imap (dateStr cur)).getD sentinelNTD
        ++ "\n" ++ indLoop imap before f (predDate cur)
    else ""

/-- Error kinds of the indicator path. -/
inductive IndError where
  | invalidDate
  | noData
  | unsupportedIndicator
deriving DecidableEq

/-- `get_indicators`: parse `curr_date`, compute `before` and the 200-day
warm-up start, fetch the range, fail on empty history, fail on an
unregistered indicator, compute the per-bar values, build the
date → rendered-value map, and walk the window day by day (newest first). -/
def get_indicators (st : Store) (reg : Registry)
    (symbol indicator curr_date : String) (look_back_days : ℕ) :
    Except IndError String :=
  match parseYmd curr_date with
  | none => .error .invalidDate
  | some curr =>
    let before := subDays curr look_back_days
    let warmup_start := subDays before 200
    let df := query_ohlcv st symbol (dateStr warmup_start) curr_date
    if df.rows.isEmpty then .error .noData
    else
      match lookupReg reg indicator with
      | none => .error .unsupportedIndicator
      | some f =>
        let vals := f.val df.rows
        let pairs := (df.rows.zip vals).map
          (fun rv => (toDateStr rv.1.timestamp, renderOpt rv.2))
        let body := indLoop pairs before (look_back_days + 1) curr
        .ok ("## " ++ indicator ++ " values from " ++ dateStr before
          ++ " to " ++ curr_date ++ ":\n\n" ++ body
          ++ "\n\nSource: TradingView webhook data")

/-- The calendar days the report walks, newest first:
`currDate, currDate - 1, …, currDate - k`. -/
def windowDays (curr : Date) (k : ℕ) : List Date :=
  (List.range (k + 1)).map (fun i => predDate^[i] curr)

/-- Concatenation of report lines. -/
def concatLines : List String → String
  | [] => ""
  | s :: rest => s ++ concatLines rest

/-!
## IngestionEndpoint: `receive_raw` (`tradingview_webhook.py` lines 56-86)

JSON scalar values are modelled as strings or rationals (the shapes the
ingestion contract sends); Python truthiness on them is `v != ""` and
`v != 0`.  `float()`/`int()` coercion of numeric strings is modelled by a
plain decimal parser; an unparseable coercion is the `exn` outcome (an
uncaught `ValueError`, distinct from the endpoint's own error response).
-/

/-- A JSON scalar. -/
inductive JVal where
  | s (v : String)
  | n (v : ℚ)
deriving DecidableEq

/-- A parsed JSON object. -/
abbrev Payload := List (String × JVal)

/-- `data.get(k)`. -/
def jGet (p : Payload) (k : String) : Option JVal :=
  (p.find? (fun kv => kv.1 == k)).map (fun kv => kv.2)

/-- Python truthiness of a JSON scalar. -/
def truthy : JVal → Bool
  | .s v => !(v == "")
  | .n q => !(q == 0)

/-- Python `a or b` over possibly-missing values: keep `a` when truthy,
otherwise fall through to `b`. -/
def pyOr (a b : Option JVal) : Option JVal :=
  match a with
  | some v => if truthy v then some v else b
  | none => b

/-- Python `a or default` with a literal default. -/
def pyOrD (a : Option JVal) (dflt : JVal) : JVal :=
  match a with
  | some v => if truthy v then v else dflt
  | none => dflt

/-- Truthiness of a lookup chain result (`None` is falsy). -/
def pyTruthyOpt : Option JVal → Bool
  | none => false
  | some v => truthy v

/-- `str(v)`. -/
def pyStr : JVal → String
  | .s v => v
  | .n q => renderVal q

/-- Value of an unsigned decimal digit string. -/
def digitsVal : List Char → Option ℕ
  | [] => none
  | l => l.foldl (fun acc c => match acc with
      | none => none
      | some a => if c.isDigit then some (a * 10 + charVal c) else none)
      (some 0)

/-- A plain decimal literal `[-]digits[.digits]` as a rational
(the subset of Python `float()` syntax the model covers). -/
def parseDec (s : String) : Option ℚ :=
  let core (l : List Char) : Option ℚ :=
    let ip := l.takeWhile (fun c => !(c == '.'))
    match l.dropWhile (fun c => !(c == '.')) with
    | [] => (digitsVal ip).map (fun n => (n : ℚ))
    | '.' :: fp =>
      match ip, fp with
      | [], [] => none
      | [], _ => (digitsVal fp).map (fun n => (n : ℚ) / (10 : ℚ) ^ fp.length)
      | _, [] => (digitsVal ip).map (fun n => (n : ℚ))
      | _, _ =>
        match digitsVal ip, digitsVal fp with
        | some a, some b => some ((a : ℚ) + (b : ℚ) / (10 : ℚ) ^ fp.length)
        | _, _ => none
    | _ => none
  match s.data with
  | '-' :: rest => (core rest).map Neg.neg
  | l => core l

/-- Python `float(v)`; `none` models an uncaught `ValueError`. -/
def pyFloat : JVal → Option ℚ
  | .n q => some q
  | .s v => parseDec v

/-- Python `int(v)`: floats truncate toward zero, strings must be integer
literals. -/
def pyInt : JVal → Option ℤ
  | .n q => some (q.num.tdiv (q.den : ℤ))
  | .s v =>
    match v.data with
    | '-' :: rest => (digitsVal rest).map (fun n => -(n : ℤ))
    | l => (digitsVal l).map (fun n => (n : ℤ))

/-- Outcome of the `/webhook/raw` endpoint. -/
inductive RecvResult where
  | okResp (ticker time : String)
  | errResponse
  | exn
deriving DecidableEq

/-- The `ticker` lookup chain of `receive_raw`. -/
def resolveTicker (p : Payload) : Option JVal :=
  pyOr (jGet p "ticker") (pyOr (jGet p "symbol") (jGet p "pair"))

/-- The `time` lookup chain. -/
def resolveTime (p : Payload) : Option JVal :=
  pyOr (jGet p "time") (pyOr (jGet p "timestamp") (jGet p "date"))

/-- The `open` lookup chain. -/
def resolveOpen (p : Payload) : Option JVal := pyOr (jGet p "open") (jGet p "o")

/-- The `high` lookup chain. -/
def resolveHigh (p : Payload) : Option JVal := pyOr (jGet p "high") (jGet p "h")

/-- The `low` lookup chain. -/
def resolveLow (p : Payload) : Option JVal := pyOr (jGet p "low") (jGet p "l")

/-- The `close` lookup chain. -/
def resolveClose (p : Payload) : Option JVal := pyOr (jGet p "close") (jGet p "c")

/-- The `volume` lookup chain, with its literal default `0`. -/
def resolveVolume (p : Payload) : JVal :=
  pyOrD (pyOr (jGet p "volume") (jGet p "v")) (.n 0)

/-- The `if not all([...])` rejection test of `receive_raw` (line 74):
true when every required chain produced a truthy value. -/
def requiredResolved (p : Payload) : Bool :=
  pyTruthyOpt (resolveTicker p) && pyTruthyOpt (resolveTime p) &&
  pyTruthyOpt (resolveOpen p) && pyTruthyOpt (resolveHigh p) &&
  pyTruthyOpt (resolveLow p) && pyTruthyOpt (resolveClose p)

/-- `receive_raw`: resolve each field through its synonym chain with
Python `or`, reject with the error response when any required chain result
is falsy, coerce, and insert. -/
def receive_raw (st : Store) (p : Payload) : Store × RecvResult :=
  if !requiredResolved p then (st, .errResponse)
  else
    match resolveTicker p, resolveTime p, resolveOpen p, resolveHigh p,
          resolveLow p, resolveClose p with
    | some tkJ, some tvJ, some oJ, some hJ, some lJ, some cJ =>
      match pyFloat oJ, pyFloat hJ, pyFloat lJ, pyFloat cJ,
            pyInt (resolveVolume p) with
      | some o, some h, some l, some c, some v =>
        (insert_bar st (pyStr tkJ) (pyStr tvJ) o h l c v,
         .okResp (pyStr tkJ) (pyStr tvJ))
      | _, _, _, _, _ => (st, .exn)
    | _, _, _, _, _, _ => (st, .exn)

/-- Well-formed store: the reachable states of the SQLite table — unique
`(ticker, timestamp)` keys (the table's `UNIQUE` constraint) and ISO
timestamps (the spec's Bar data model; `pd.to_datetime` raises on anything
else). -/
def WellFormed (st : Store) : Prop :=
  (st.map (fun b => (b.ticker, b.timestamp))).Nodup ∧
  ∀ b ∈ st, (parseYmdChars (b.timestamp.data.take 10)).isSome = true

instance (st : Store) : Decidable (WellFormed st) := by
  unfold WellFormed
  infer_instance

/-!
## Supporting lemmas
-/

theorem daysInMonth_le (y m : ℕ) : daysInMonth y m ≤ 31 := by
  unfold daysInMonth
  split
  · split <;> omega
  · split <;> omega

theorem predDate_y_le (x : Date) : (predDate x).y ≤ x.y := by
  unfold predDate
  split
  · exact le_refl _
  · split <;> simp

theorem iterate_y_le (x : Date) (k : ℕ) : (predDate^[k] x).y ≤ x.y := by
  induction k generalizing x with
  | zero => simp
  | succ n ih =>
    rw [Function.iterate_succ_apply]
    exact le_trans (ih (predDate x)) (predDate_y_le x)

theorem predDate_lt (x : Date) (hy : 0 < x.y) : dateLt (predDate x) x := by
  unfold dateLt dateKey predDate
  have hdm := daysInMonth_le x.y (x.m - 1)
  split
  · simp only
    omega
  · split
    · simp only
      omega
    · simp only
      omega

theorem predDate_le (x : Date) (hy : 0 < x.y) : dateLe (predDate x) x :=
  le_of_lt (predDate_lt x hy)

theorem y_pos_up (x : Date) (k : ℕ) (h : 0 < (predDate^[k] x).y) : 0 < x.y :=
  lt_of_lt_of_le h (iterate_y_le x k)

theorem iterate_dateLe (x : Date) (k : ℕ) (h : 0 < (predDate^[k] x).y) :
    dateLe (predDate^[k] x) x := by
  induction k generalizing x with
  | zero => exact le_refl _
  | succ n ih =>
    rw [Function.iterate_succ_apply] at h ⊢
    have h1 : 0 < (predDate x).y := y_pos_up (predDate x) n h
    exact le_trans (ih (predDate x) h) (predDate_le x (lt_of_lt_of_le h1 (predDate_y_le x)))

theorem iterate_dateLe_of_le (x : Date) (i k : ℕ) (hik : i ≤ k)
    (h : 0 < (predDate^[k] x).y) :
    dateLe (predDate^[k] x) (predDate^[i] x) := by
  have hk : k = (k - i) + i := by omega
  rw [hk, Function.iterate_add_apply] at h ⊢
  exact iterate_dateLe (predDate^[i] x) (k - i) h

theorem y_pos_of_le (x : Date) (i k : ℕ) (hik : i ≤ k)
    (h : 0 < (predDate^[k] x).y) : 0 < (predDate^[i] x).y := by
  have hk : k = (k - i) + i := by omega
  rw [hk, Function.iterate_add_apply] at h
  exact y_pos_up (predDate^[i] x) (k - i) h

theorem concatLines_cons (s : String) (l : List String) :
    concatLines (s :: l) = s ++ concatLines l := rfl

theorem string_append_empty (s : String) : s ++ "" = s := by
  apply String.ext
  rw [String.data_append]
  exact List.append_nil _

/-- When the fuel runs out, the loop guard is already false: with
`before = currDate - k` and fuel `k + 1`, the next cursor value
`currDate - (k + 1)` is strictly before `before`, so the Python `while`
would stop here too. -/
theorem indLoop_guard_stops (k : ℕ) (curr : Date)
    (hy : 0 < (predDate^[k] curr).y) :
    ¬ dateLe (predDate^[k] curr) (predDate^[k + 1] curr) := by
  have h := predDate_lt (predDate^[k] curr) hy
  rw [Function.iterate_succ_apply']
  exact not_le_of_lt h

/-- Splitting the first element off a mapped range. -/
theorem map_range_succ_shift {α : Type} (g : ℕ → α) (n : ℕ) :
    (List.range (n + 1)).map g = g 0 :: (List.range n).map (fun i => g (i + 1)) := by
  rw [List.range_succ_eq_map, List.map_cons, List.map_map]
  rfl

/-- The report loop emits exactly one line per day from `currDate` down to
`currDate - k`, newest first. -/
theorem indLoop_unroll (imap : List (String × String)) (k : ℕ) (curr : Date)
    (hy : 0 < (predDate^[k] curr).y) :
    indLoop imap (predDate^[k] curr) (k + 1) curr =
      concatLines ((List.range (k + 1)).map (fun i =>
        dateStr (predDate^[i] curr) ++ ": " ++
        (dictGet imap (dateStr (predDate^[i] curr))).getD sentinelNTD ++ "\n")) := by
  induction k generalizing curr with
  | zero =>
    simp only [Function.iterate_zero_apply] at hy ⊢
    have hg : dateLe curr curr := le_refl _
    show indLoop imap curr 1 curr = _
    rw [indLoop, if_pos hg]
    show _ ++ indLoop imap curr 0 (predDate curr) = _
    rw [indLoop]
    rw [show List.range 1 = [0] from rfl]
    simp only [List.map_cons, List.map_nil,
      Function.iterate_zero_apply, concatLines_cons]
    show _ = _ ++ concatLines []
    rw [show concatLines [] = "" from rfl, string_append_empty]
  | succ n ih =>
    have hguard : dateLe (predDate^[n + 1] curr) curr :=
      iterate_dateLe curr (n + 1) hy
    rw [indLoop, if_pos hguard]
    have hs : predDate^[n + 1] curr = predDate^[n] (predDate curr) :=
      Function.iterate_succ_apply predDate n curr
    have hy2 : 0 < (predDate^[n] (predDate curr)).y := by rw [← hs]; exact hy
    rw [hs, ih (predDate curr) hy2]
    rw [map_range_succ_shift
      (fun i => dateStr (predDate^[i] curr) ++ ": " ++
        (dictGet imap (dateStr (predDate^[i] curr))).getD sentinelNTD ++ "\n")
      (n + 1)]
    rw [concatLines_cons]
    have hfun : (fun i => dateStr (predDate^[i + 1] curr) ++ ": " ++
        (dictGet imap (dateStr (predDate^[i + 1] curr))).getD sentinelNTD ++ "\n") =
        (fun i => dateStr (predDate^[i] (predDate curr)) ++ ": " ++
        (dictGet imap (dateStr (predDate^[i] (predDate curr)))).getD sentinelNTD
          ++ "\n") := by
      funext i
      rw [Function.iterate_succ_apply]
    simp only [Function.iterate_zero_apply]
    rw [hfun]

/-- The characters a rendered numeric value can contain. -/
def numChars : List Char :=
  ['0', '1', '2', '3', '4', '5', '6', '7', '8', '9', '-', '/']

theorem digitChar10_mem (n : ℕ) : digitChar10 n ∈ numChars := by
  rcases n with _|_|_|_|_|_|_|_|_|n <;> simp [digitChar10, numChars]

theorem char_toString_data (c : Char) : (Char.toString c).data = [c] := rfl

theorem natStrAux_chars (fuel : ℕ) :
    ∀ n, ∀ c ∈ (natStrAux fuel n).data, c ∈ numChars := by
  induction fuel with
  | zero => intro n c hc; simp [natStrAux] at hc
  | succ f ih =>
    intro n c hc
    rw [natStrAux] at hc
    split at hc
    · rw [char_toString_data, List.mem_singleton] at hc
      subst hc
      exact digitChar10_mem n
    · rw [String.data_append, char_toString_data] at hc
      rcases List.mem_append.mp hc with h | h
      · exact ih (n / 10) c h
      · rw [List.mem_singleton] at h
        subst h
        exact digitChar10_mem _

theorem natStr_chars (n : ℕ) : ∀ c ∈ (natStr n).data, c ∈ numChars :=
  natStrAux_chars (n + 1) n

theorem renderVal_chars (q : ℚ) : ∀ c ∈ (renderVal q).data, c ∈ numChars := by
  intro c hc
  unfold renderVal at hc
  rw [String.data_append, String.data_append, String.data_append] at hc
  rcases List.mem_append.mp hc with h | h
  · rcases List.mem_append.mp h with h2 | h2
    · rcases List.mem_append.mp h2 with h3 | h3
      · split at h3
        · rw [show ("-" : String).data = ['-'] from rfl, List.mem_singleton] at h3
          subst h3; simp [numChars]
        · simp [show ("" : String).data = [] from rfl] at h3
      · exact natStr_chars _ c h3
    · rw [show ("/" : String).data = ['/'] from rfl, List.mem_singleton] at h2
      subst h2; simp [numChars]
  · exact natStr_chars _ c h

theorem renderVal_ne_NA (q : ℚ) : renderVal q ≠ "N/A" := by
  intro h
  have hN : 'N' ∈ (renderVal q).data := by
    rw [h]; exact List.mem_cons_self _ _
  have := renderVal_chars q 'N' hN
  simp [numChars] at this

theorem renderVal_ne_sentinelNTD (q : ℚ) : renderVal q ≠ sentinelNTD := by
  intro h
  have hN : 'N' ∈ (renderVal q).data := by
    rw [h]; exact List.mem_cons_self _ _
  have := renderVal_chars q 'N' hN
  simp [numChars] at this

theorem sqlMin_choice (a b : String) : sqlMin a b = a ∨ sqlMin a b = b := by
  unfold sqlMin; split
  · exact Or.inl rfl
  · exact Or.inr rfl

theorem sqlMax_choice (a b : String) : sqlMax a b = a ∨ sqlMax a b = b := by
  unfold sqlMax; split
  · exact Or.inr rfl
  · exact Or.inl rfl

theorem sqlMin_le_left (a b : String) : sqlMin a b ≤ a := by
  unfold sqlMin; split
  · exact le_refl a
  · next h =>
    apply le_of_not_le
    intro hab
    exact h ((strLeb_iff a b).mpr hab)

theorem le_sqlMax_left (a b : String) : a ≤ sqlMax a b := by
  unfold sqlMax; split
  · next h => exact (strLeb_iff a b).mp h
  · exact le_refl a

theorem foldl_min_mem (t : String) (l : List String) :
    l.foldl sqlMin t = t ∨ l.foldl sqlMin t ∈ l := by
  induction l generalizing t with
  | nil => left; rfl
  | cons a l ih =>
    rcases ih (sqlMin t a) with h | h
    · rcases sqlMin_choice t a with hm | hm
      · left; rw [List.foldl_cons, h, hm]
      · right; rw [List.foldl_cons, h, hm]; exact List.mem_cons_self _ _
    · right; exact List.mem_cons_of_mem _ h

theorem foldl_min_le (t : String) (l : List String) : l.foldl sqlMin t ≤ t := by
  induction l generalizing t with
  | nil => exact le_refl _
  | cons a l ih =>
    rw [List.foldl_cons]
    exact le_trans (ih (sqlMin t a)) (sqlMin_le_left t a)

theorem foldl_max_mem (t : String) (l : List String) :
    l.foldl sqlMax t = t ∨ l.foldl sqlMax t ∈ l := by
  induction l generalizing t with
  | nil => left; rfl
  | cons a l ih =>
    rcases ih (sqlMax t a) with h | h
    · rcases sqlMax_choice t a with hm | hm
      · left; rw [List.foldl_cons, h, hm]
      · right; rw [List.foldl_cons, h, hm]; exact List.mem_cons_self _ _
    · right; exact List.mem_cons_of_mem _ h

theorem le_foldl_max (t : String) (l : List String) : t ≤ l.foldl sqlMax t := by
  induction l generalizing t with
  | nil => exact le_refl _
  | cons a l ih =>
    rw [List.foldl_cons]
    exact le_trans (le_sqlMax_left t a) (ih (sqlMax t a))

theorem find?_append_of_none {α : Type} {p : α → Bool} {l1 l2 : List α}
    (h : l1.find? p = none) : (l1 ++ l2).find? p = l2.find? p := by
  induction l1 with
  | nil => rfl
  | cons a t ih =>
    cases hpa : p a with
    | true => rw [List.find?_cons_of_pos _ hpa] at h; cases h
    | false =>
      have hpa2 : ¬ p a = true := by simp [hpa]
      rw [List.find?_cons_of_neg _ hpa2] at h
      rw [List.cons_append, List.find?_cons_of_neg _ hpa2]
      exact ih h

theorem rowMatch_iff (tk s e : String) (b : Bar) :
    rowMatch tk s e b = true ↔
      (b.ticker = tk ∧ s ≤ b.timestamp ∧ b.timestamp ≤ e) := by
  simp [rowMatch, Bool.and_eq_true, beq_iff_eq, strLeb_iff, and_assoc]

theorem query_rows_perm (st : Store) (tk s e : String) :
    ((query_ohlcv st tk s e).rows).Perm ((st.filter (rowMatch tk s e)).map toRow) := by
  have hperm := List.perm_insertionSort rowLe ((st.filter (rowMatch tk s e)).map toRow)
  simp only [query_ohlcv]
  split
  · next hemp =>
    rw [List.isEmpty_iff] at hemp
    rw [hemp] at hperm
    exact hperm
  · exact hperm

theorem mem_query_rows (st : Store) (tk s e : String) (r : Row)
    (hr : r ∈ (query_ohlcv st tk s e).rows) :
    ∃ b ∈ st, rowMatch tk s e b = true ∧ toRow b = r := by
  have h := (query_rows_perm st tk s e).mem_iff.mp hr
  rcases List.mem_map.mp h with ⟨b, hb, hbr⟩
  rcases List.mem_filter.mp hb with ⟨hbst, hbm⟩
  exact ⟨b, hbst, hbm, hbr⟩

theorem query_rows_nil_of_no_ticker (st : Store) (tk s e : String)
    (h : ∀ b ∈ st, b.ticker ≠ tk) : (query_ohlcv st tk s e).rows = [] := by
  have hfil : st.filter (rowMatch tk s e) = [] := by
    rw [List.filter_eq_nil_iff]
    intro b hb hmatch
    exact h b hb ((rowMatch_iff tk s e b).mp hmatch).1
  have := query_rows_perm st tk s e
  rw [hfil] at this
  simpa using this.eq_nil

theorem isCent_round2 (q : ℚ) : isCent (round2 q) :=
  ⟨roundHalfEven (q * 100), rfl⟩

theorem pyTruthyOpt_true {x : Option JVal} (h : pyTruthyOpt x = true) :
    ∃ v, x = some v ∧ truthy v = true := by
  cases x with
  | none => simp [pyTruthyOpt] at h
  | some v => exact ⟨v, rfl, h⟩

theorem dictGet_some {m : List (String × String)} {k val : String}
    (h : dictGet m k = some val) : ∃ pr ∈ m, pr.1 = k ∧ pr.2 = val := by
  unfold dictGet at h
  cases hf : m.reverse.find? (fun pr => pr.1 == k) with
  | none => rw [hf] at h; cases h
  | some pr =>
    rw [hf] at h
    have hk := List.find?_some hf
    have hmem : pr ∈ m.reverse := List.mem_of_find?_eq_some hf
    simp only [beq_iff_eq] at hk
    refine ⟨pr, List.mem_reverse.mp hmem, hk, ?_⟩
    simpa using h

/-- Inversion of a successful `get_indicators` run: the indicator was
registered, the warm-up fetch was non-empty, and the output is the header
around the day-by-day loop. -/
theorem get_indicators_ok_elim (st : Store) (reg : Registry)
    (sym ind cd : String) (k : ℕ) (curr : Date) (out : String)
    (h1 : parseYmd cd = some curr)
    (hok : get_indicators st reg sym ind cd k = .ok out) :
    ∃ f : Formula, lookupReg reg ind = some f ∧
      (query_ohlcv st sym (dateStr (subDays (subDays curr k) 200)) cd).rows ≠ [] ∧
      out = "## " ++ ind ++ " values from " ++ dateStr (subDays curr k) ++ " to "
        ++ cd ++ ":\n\n"
        ++ indLoop
            ((((query_ohlcv st sym (dateStr (subDays (subDays curr k) 200)) cd).rows).zip
              (f.val (query_ohlcv st sym (dateStr (subDays (subDays curr k) 200)) cd).rows)).map
              (fun rv => (toDateStr rv.1.timestamp, renderOpt rv.2)))
            (subDays curr k) (k + 1) curr
        ++ "\n\nSource: TradingView webhook data" := by
  rw [get_indicators, h1] at hok
  simp only at hok
  by_cases hemp : (query_ohlcv st sym (dateStr (subDays (subDays curr k) 200)) cd).rows.isEmpty
  · rw [if_pos hemp] at hok; cases hok
  · rw [if_neg hemp] at hok
    cases hlr : lookupReg reg ind with
    | none => rw [hlr] at hok; cases hok
    | some f =>
      rw [hlr] at hok
      refine ⟨f, rfl, ?_, ?_⟩
      · intro hnil
        apply hemp
        rw [hnil]
        rfl
      · exact (Except.ok.injEq _ _ ).mp hok.symm

/-!
## Claim theorems
-/

/-- C1: for every `(ticker, timestamp)` key, inserting a bar when a bar
with that key is already stored is a silent no-op (`insert_bar` is total,
so it never raises), and the stored row for that key keeps the first
insert's open/high/low/close/volume values, for any values in the second
insert. -/
theorem insert_bar_idempotent (st : Store) (tk ts : String)
    (o1 h1 l1 c1 : ℚ) (v1 : ℤ) (o2 h2 l2 c2 : ℚ) (v2 : ℤ)
    (habs : hasKey st tk ts = false) :
    (∀ st2 : Store, hasKey st2 tk ts = true →
      insert_bar st2 tk ts o2 h2 l2 c2 v2 = st2) ∧
    insert_bar (insert_bar st tk ts o1 h1 l1 c1 v1) tk ts o2 h2 l2 c2 v2 =
      insert_bar st tk ts o1 h1 l1 c1 v1 ∧
    lookupBar (insert_bar (insert_bar st tk ts o1 h1 l1 c1 v1) tk ts o2 h2 l2 c2 v2)
      tk ts = some ⟨tk, ts, o1, h1, l1, c1, v1⟩ := by
  have hfirst : insert_bar st tk ts o1 h1 l1 c1 v1 =
      st ++ [⟨tk, ts, o1, h1, l1, c1, v1⟩] := by
    rw [insert_bar, if_neg]
    rw [habs]
    exact Bool.false_ne_true
  have hkey2 : hasKey (st ++ [⟨tk, ts, o1, h1, l1, c1, v1⟩]) tk ts = true := by
    rw [hasKey, List.any_append]
    simp
  have hnoop : insert_bar (insert_bar st tk ts o1 h1 l1 c1 v1) tk ts o2 h2 l2 c2 v2 =
      insert_bar st tk ts o1 h1 l1 c1 v1 := by
    rw [hfirst, insert_bar, if_pos hkey2]
  refine ⟨fun st2 hk2 => by rw [insert_bar, if_pos hk2], hnoop, ?_⟩
  rw [hnoop, hfirst, lookupBar]
  have hnone : st.find? (fun b => b.ticker == tk && b.timestamp == ts) = none := by
    rw [List.find?_eq_none]
    intro b hb
    have := List.any_eq_false.mp habs b hb
    simpa using this
  rw [find?_append_of_none hnone]
  simp

/-- C1 witness. -/
theorem insert_bar_idempotent_witness :
    hasKey [] "ACME" "2024-01-05" = false ∧
    ((∀ st2 : Store, hasKey st2 "ACME" "2024-01-05" = true →
       insert_bar st2 "ACME" "2024-01-05" 5 6 7 8 9 = st2) ∧
    insert_bar (insert_bar [] "ACME" "2024-01-05" 1 2 1 (3/2) 10)
        "ACME" "2024-01-05" 5 6 7 8 9 =
      insert_bar [] "ACME" "2024-01-05" 1 2 1 (3/2) 10 ∧
    lookupBar (insert_bar (insert_bar [] "ACME" "2024-01-05" 1 2 1 (3/2) 10)
        "ACME" "2024-01-05" 5 6 7 8 9) "ACME" "2024-01-05" =
      some ⟨"ACME", "2024-01-05", 1, 2, 1, 3/2, 10⟩) :=
  ⟨by decide,
   insert_bar_idempotent [] "ACME" "2024-01-05" 1 2 1 (3/2) 10 5 6 7 8 9 (by decide)⟩

/-- C2: for every well-formed store, ticker and date strings, `query_ohlcv`
returns exactly the stored bars whose ticker matches and whose timestamp
lies in the lexicographic-inclusive range, sorted ascending by timestamp;
when nothing matches — in particular when `startDate > endDate` — it
returns an empty result (and, being total, never raises). -/
theorem query_range_exact (st : Store) (tk s e : String)
    (_hwf : WellFormed st) :
    (∀ b : Bar, rowMatch tk s e b = true ↔
      (b.ticker = tk ∧ s ≤ b.timestamp ∧ b.timestamp ≤ e)) ∧
    ((query_ohlcv st tk s e).rows).Perm ((st.filter (rowMatch tk s e)).map toRow) ∧
    List.Sorted rowLe (query_ohlcv st tk s e).rows ∧
    ((¬ ∃ b ∈ st, b.ticker = tk ∧ s ≤ b.timestamp ∧ b.timestamp ≤ e) →
      (query_ohlcv st tk s e).rows = []) ∧
    (e < s → (query_ohlcv st tk s e).rows = []) := by
  refine ⟨rowMatch_iff tk s e, query_rows_perm st tk s e, ?_, ?_, ?_⟩
  · simp only [query_ohlcv]
    split
    · exact List.sorted_nil
    · exact List.sorted_insertionSort rowLe _
  · intro hno
    have hfil : st.filter (rowMatch tk s e) = [] := by
      rw [List.filter_eq_nil_iff]
      intro b hb hmatch
      exact hno ⟨b, hb, (rowMatch_iff tk s e b).mp hmatch⟩
    have hperm := query_rows_perm st tk s e
    rw [hfil] at hperm
    simpa using hperm.eq_nil
  · intro hinv
    have hno : ¬ ∃ b ∈ st, b.ticker = tk ∧ s ≤ b.timestamp ∧ b.timestamp ≤ e := by
      rintro ⟨b, _, _, hsb, hbe⟩
      exact absurd (le_trans hsb hbe) (not_le_of_lt hinv)
    have hfil : st.filter (rowMatch tk s e) = [] := by
      rw [List.filter_eq_nil_iff]
      intro b hb hmatch
      exact hno ⟨b, hb, (rowMatch_iff tk s e b).mp hmatch⟩
    have hperm := query_rows_perm st tk s e
    rw [hfil] at hperm
    simpa using hperm.eq_nil

/-- A small concrete store used by witnesses. -/
def demoStore : Store :=
  [⟨"ACME", "2024-01-05", 1, 2, 1, 3/2, 10⟩,
   ⟨"ACME", "2024-01-04", 1, 2, 1, 2, 5⟩]

/-- C2 witness: two bars inserted out of order come back sorted. -/
theorem query_range_exact_witness :
    WellFormed demoStore ∧
    List.Sorted rowLe (query_ohlcv demoStore "ACME" "2024-01-01" "2024-01-31").rows ∧
    ("2024-01-01" < "2024-01-31" →
      (query_ohlcv demoStore "ACME" "2024-01-31" "2024-01-01").rows = []) :=
  ⟨by decide,
   (query_range_exact demoStore "ACME" "2024-01-01" "2024-01-31" (by decide)).2.2.1,
   fun hlt =>
   (query_range_exact demoStore "ACME" "2024-01-31" "2024-01-01" (by decide)).2.2.2.2 hlt⟩

/-- C3 counterexample: on an empty result the claim fails — `query_ohlcv`
returns the Series with the *raw lowercase* column names, not the renamed
`Date, Open, High, Low, Close, Volume` convention, because the rename is
skipped by the early `if df.empty: return df`. -/
theorem query_empty_cols_cex :
    (query_ohlcv [] "ACME" "2024-01-01" "2024-01-31").rows = [] ∧
    (query_ohlcv [] "ACME" "2024-01-01" "2024-01-31").cols = rawCols ∧
    ¬ (query_ohlcv [] "ACME" "2024-01-01" "2024-01-31").cols = renamedCols := by
  decide

/-- C3 amended: every *non-empty* Series returned by `query_ohlcv` has its
columns renamed to `Date, Open, High, Low, Close, Volume`; an empty Series
keeps the raw lowercase column names `timestamp, open, high, low, close,
volume`. -/
theorem query_cols_renamed_iff_nonempty (st : Store) (tk s e : String) :
    ((query_ohlcv st tk s e).rows ≠ [] →
      (query_ohlcv st tk s e).cols = renamedCols) ∧
    ((query_ohlcv st tk s e).rows = [] →
      (query_ohlcv st tk s e).cols = rawCols) := by
  simp only [query_ohlcv]
  split
  · exact ⟨fun h => absurd rfl h, fun _ => rfl⟩
  · next hne =>
    refine ⟨fun _ => rfl, fun h => ?_⟩
    rw [List.isEmpty_eq_true] at hne
    exact absurd h hne

/-- C3 amended witness. -/
theorem query_cols_renamed_iff_nonempty_witness :
    ((query_ohlcv demoStore "ACME" "2024-01-01" "2024-01-31").rows ≠ [] →
      (query_ohlcv demoStore "ACME" "2024-01-01" "2024-01-31").cols = renamedCols) ∧
    (query_ohlcv demoStore "ACME" "2024-01-01" "2024-01-31").rows ≠ [] ∧
    (query_ohlcv demoStore "ACME" "2024-01-01" "2024-01-31").cols = renamedCols :=
  ⟨(query_cols_renamed_iff_nonempty demoStore "ACME" "2024-01-01" "2024-01-31").1,
   by decide,
   (query_cols_renamed_iff_nonempty demoStore "ACME" "2024-01-01" "2024-01-31").1
     (by decide)⟩

/-- C4: for valid dates, the raw-extract path `get_stock_data` fails with
the no-data error exactly when the underlying `query_ohlcv` result is
empty; on an unknown ticker `query_ohlcv` returns an empty result (without
raising — it is total) while `get_stock_data` raises
`TradingViewDataNotAvailableError`. -/
theorem get_stock_data_noData_iff (st : Store) (sym s e : String)
    (hs : (parseYmd s).isSome = true) (he : (parseYmd e).isSome = true) :
    (get_stock_data st sym s e = .error .noData ↔
      (query_ohlcv st sym s e).rows = []) ∧
    ((∀ b ∈ st, b.ticker ≠ sym) →
      (query_ohlcv st sym s e).rows = [] ∧
      get_stock_data st sym s e = .error .noData) := by
  have hs2 : (parseYmd s).isNone = false := by
    rw [Option.isNone_eq_false_iff]
    exact hs
  have he2 : (parseYmd e).isNone = false := by
    rw [Option.isNone_eq_false_iff]
    exact he
  have hmain : get_stock_data st sym s e = .error .noData ↔
      (query_ohlcv st sym s e).rows = [] := by
    rw [get_stock_data, hs2, he2]
    simp only [Bool.false_eq_true, if_false]
    constructor
    · intro h
      by_cases hemp : (query_ohlcv st sym s e).rows.isEmpty
      · exact List.isEmpty_eq_true.mp hemp
      · rw [if_neg hemp] at h
        cases h
    · intro h
      rw [if_pos]
      rw [List.isEmpty_eq_true]
      exact h
  refine ⟨hmain, fun hno => ?_⟩
  have hnil := query_rows_nil_of_no_ticker st sym s e hno
  exact ⟨hnil, hmain.mpr hnil⟩

/-- C4 witness: unknown ticker on a concrete store. -/
theorem get_stock_data_noData_iff_witness :
    (query_ohlcv demoStore "UNKNOWN" "2024-01-01" "2024-01-31").rows = [] ∧
    get_stock_data demoStore "UNKNOWN" "2024-01-01" "2024-01-31" = .error .noData :=
  (get_stock_data_noData_iff demoStore "UNKNOWN" "2024-01-01" "2024-01-31"
    (by decide) (by decide)).2
    (by decide)

/-- C10: `get_date_range` returns `none` exactly when the ticker has zero
stored bars; otherwise the summary has `count ≥ 1`, `min ≤ max`
lexicographically, and `min` and `max` are both timestamps of bars stored
for that ticker. -/
theorem get_date_range_summary (st : Store) (tk : String) :
    (get_date_range st tk = none ↔ ∀ b ∈ st, b.ticker ≠ tk) ∧
    (∀ info : RangeInfo, get_date_range st tk = some info →
      1 ≤ info.count ∧ info.min ≤ info.max ∧
      (∃ b ∈ st, b.ticker = tk ∧ b.timestamp = info.min) ∧
      (∃ b ∈ st, b.ticker = tk ∧ b.timestamp = info.max)) := by
  constructor
  · cases hts : (st.filter (fun b => b.ticker == tk)).map Bar.timestamp with
    | nil =>
      simp only [get_date_range, hts]
      constructor
      · intro _ b hb hbt
        have hfil : b ∈ st.filter (fun b => b.ticker == tk) :=
          List.mem_filter.mpr ⟨hb, by simp [hbt]⟩
        have : b.timestamp ∈
            (st.filter (fun b => b.ticker == tk)).map Bar.timestamp :=
          List.mem_map_of_mem _ hfil
        rw [hts] at this
        cases this
      · intro _; trivial
    | cons t rest =>
      simp only [get_date_range, hts]
      constructor
      · intro h; cases h
      · intro hno
        exfalso
        have hemp : st.filter (fun b => b.ticker == tk) = [] := by
          rw [List.filter_eq_nil_iff]
          intro b hb hbt
          exact hno b hb (beq_iff_eq.mp hbt)
        rw [hemp] at hts
        cases hts
  · intro info hinfo
    cases hts : (st.filter (fun b => b.ticker == tk)).map Bar.timestamp with
    | nil => rw [get_date_range, hts] at hinfo; cases hinfo
    | cons t rest =>
      rw [get_date_range, hts] at hinfo
      have hinfo2 := (Option.some.injEq _ _).mp hinfo
      have hmem_of_ts : ∀ u, u ∈ t :: rest →
          ∃ b ∈ st, b.ticker = tk ∧ b.timestamp = u := by
        intro u hu
        rw [← hts] at hu
        rcases List.mem_map.mp hu with ⟨b, hbf, hbu⟩
        rcases List.mem_filter.mp hbf with ⟨hbst, hbt⟩
        exact ⟨b, hbst, beq_iff_eq.mp hbt, hbu⟩
      refine ⟨?_, ?_, ?_, ?_⟩
      · rw [← hinfo2]
        simp
      · rw [← hinfo2]
        exact le_trans (foldl_min_le t rest) (le_foldl_max t rest)
      · rw [← hinfo2]
        apply hmem_of_ts
        rcases foldl_min_mem t rest with h | h
        · rw [h]; exact List.mem_cons_self _ _
        · exact List.mem_cons_of_mem _ h
      · rw [← hinfo2]
        apply hmem_of_ts
        rcases foldl_max_mem t rest with h | h
        · rw [h]; exact List.mem_cons_self _ _
        · exact List.mem_cons_of_mem _ h

/-- C10 witness. -/
theorem get_date_range_summary_witness :
    (get_date_range demoStore "BOGUS" = none ↔
      ∀ b ∈ demoStore, b.ticker ≠ "BOGUS") ∧
    (get_date_range demoStore "ACME" = some ⟨"2024-01-04", "2024-01-05", 2⟩ ∧
      1 ≤ (2 : ℕ) ∧ ("2024-01-04" : String) ≤ "2024-01-05" ∧
      (∃ b ∈ demoStore, b.ticker = "ACME" ∧ b.timestamp = "2024-01-04") ∧
      (∃ b ∈ demoStore, b.ticker = "ACME" ∧ b.timestamp = "2024-01-05")) :=
  ⟨(get_date_range_summary demoStore "BOGUS").1,
   by decide,
   ((get_date_range_summary demoStore "ACME").2 ⟨"2024-01-04", "2024-01-05", 2⟩
     (by decide)).1,
   ((get_date_range_summary demoStore "ACME").2 ⟨"2024-01-04", "2024-01-05", 2⟩
     (by decide)).2.1,
   ((get_date_range_summary demoStore "ACME").2 ⟨"2024-01-04", "2024-01-05", 2⟩
     (by decide)).2.2.1,
   ((get_date_range_summary demoStore "ACME").2 ⟨"2024-01-04", "2024-01-05", 2⟩
     (by decide)).2.2.2⟩

/-- C5: every successful indicator report walks exactly `k + 1` calendar
days, from `currDate` down to `currDate - k`, newest first, strictly
descending with no gaps; a day with no stored bar for the ticker renders
the fixed non-trading-day sentinel, which differs from the `"N/A"` used
for a computed-but-undefined value; for `k = 0` only `currDate` is walked.
(The year-positivity hypothesis delimits the inputs on which Python date
arithmetic is defined at all — beyond it `datetime` raises
`OverflowError` and no report exists.) -/
theorem get_indicators_window (st : Store) (reg : Registry)
    (sym ind cd : String) (k : ℕ) (curr : Date) (out : String)
    (h1 : parseYmd cd = some curr)
    (hw : 0 < (subDays (subDays curr k) 200).y)
    (hok : get_indicators st reg sym ind cd k = .ok out) :
    ∃ dayVal : Date → String,
      out = "## " ++ ind ++ " values from " ++ dateStr (subDays curr k) ++ " to "
          ++ cd ++ ":\n\n"
          ++ concatLines ((windowDays curr k).map
              (fun D => dateStr D ++ ": " ++ dayVal D ++ "\n"))
          ++ "\n\nSource: TradingView webhook data" ∧
      (windowDays curr k).length = k + 1 ∧
      windowDays curr k = (List.range (k + 1)).map (fun i => subDays curr i) ∧
      List.Chain' (fun a b => dateLt b a) (windowDays curr k) ∧
      (k = 0 → windowDays curr k = [curr]) ∧
      (∀ D ∈ windowDays curr k,
        (¬ ∃ b ∈ st, b.ticker = sym ∧ toDateStr b.timestamp = dateStr D) →
        dayVal D = sentinelNTD) ∧
      sentinelNTD ≠ "N/A" := by
  have hy : 0 < (subDays curr k).y := y_pos_up (subDays curr k) 200 hw
  obtain ⟨f, hreg, hne, hout⟩ :=
    get_indicators_ok_elim st reg sym ind cd k curr out h1 hok
  refine ⟨fun D => (dictGet
      ((((query_ohlcv st sym (dateStr (subDays (subDays curr k) 200)) cd).rows).zip
        (f.val (query_ohlcv st sym (dateStr (subDays (subDays curr k) 200)) cd).rows)).map
        (fun rv => (toDateStr rv.1.timestamp, renderOpt rv.2)))
      (dateStr D)).getD sentinelNTD, ?_, ?_, rfl, ?_, ?_, ?_, ?_⟩
  · rw [hout, windowDays, List.map_map]
    congr 1
    congr 1
    exact indLoop_unroll _ k curr hy
  · simp [windowDays]
  · rw [windowDays, List.chain'_map, List.chain'_range_succ]
    intro m hm
    have hpos : 0 < (predDate^[m] curr).y :=
      y_pos_of_le curr m k (le_of_lt hm) hy
    have := predDate_lt (predDate^[m] curr) hpos
    rw [← Function.iterate_succ_apply' predDate m curr] at this
    exact this
  · intro hk
    subst hk
    rfl
  · intro D hD hno
    cases hdg : dictGet
        ((((query_ohlcv st sym (dateStr (subDays (subDays curr k) 200)) cd).rows).zip
          (f.val (query_ohlcv st sym (dateStr (subDays (subDays curr k) 200)) cd).rows)).map
          (fun rv => (toDateStr rv.1.timestamp, renderOpt rv.2)))
        (dateStr D) with
    | none => simp only [hdg, Option.getD_none]
    | some val =>
      exfalso
      obtain ⟨pr, hprmem, hpr1, _⟩ := dictGet_some hdg
      obtain ⟨rv, hrvmem, hrveq⟩ := List.mem_map.mp hprmem
      have hr1 : rv.1 ∈
          (query_ohlcv st sym (dateStr (subDays (subDays curr k) 200)) cd).rows := by
        obtain ⟨r0, ov⟩ := rv
        exact (List.of_mem_zip hrvmem).1
      obtain ⟨b, hbst, hbm, hbrow⟩ := mem_query_rows _ _ _ _ _ hr1
      apply hno
      refine ⟨b, hbst, ((rowMatch_iff _ _ _ b).mp hbm).1, ?_⟩
      have hts : rv.1.timestamp = b.timestamp := by rw [← hbrow]; rfl
      rw [← hpr1, ← hrveq]
      simp only [hts]
  · decide

/-- A demo indicator formula: the close price itself, one value per bar. -/
def closeFormula : Formula :=
  ⟨fun l => l.map (fun r => some r.close), fun l => by simp⟩

/-- A demo registry holding the one formula. -/
def demoReg : Registry := [("close", closeFormula)]

/-- C5 witness output. -/
def demoOut : String :=
  match get_indicators demoStore demoReg "ACME" "close" "2024-01-08" 1 with
  | .ok s => s
  | .error _ => ""

set_option maxRecDepth 100000 in
/-- C5 witness: a concrete two-day report over the demo store. -/
theorem get_indicators_window_witness :
    parseYmd "2024-01-08" = some ⟨2024, 1, 8⟩ ∧
    0 < (subDays (subDays ⟨2024, 1, 8⟩ 1) 200).y ∧
    get_indicators demoStore demoReg "ACME" "close" "2024-01-08" 1 = .ok demoOut ∧
    (∃ dayVal : Date → String,
      demoOut = "## " ++ "close" ++ " values from "
          ++ dateStr (subDays ⟨2024, 1, 8⟩ 1) ++ " to " ++ "2024-01-08" ++ ":\n\n"
          ++ concatLines ((windowDays ⟨2024, 1, 8⟩ 1).map
              (fun D => dateStr D ++ ": " ++ dayVal D ++ "\n"))
          ++ "\n\nSource: TradingView webhook data" ∧
      (windowDays ⟨2024, 1, 8⟩ 1).length = 1 + 1 ∧
      windowDays ⟨2024, 1, 8⟩ 1 =
        (List.range (1 + 1)).map (fun i => subDays ⟨2024, 1, 8⟩ i) ∧
      List.Chain' (fun a b => dateLt b a) (windowDays ⟨2024, 1, 8⟩ 1) ∧
      (1 = 0 → windowDays ⟨2024, 1, 8⟩ 1 = [⟨2024, 1, 8⟩]) ∧
      (∀ D ∈ windowDays ⟨2024, 1, 8⟩ 1,
        (¬ ∃ b ∈ demoStore, b.ticker = "ACME" ∧
          toDateStr b.timestamp = dateStr D) →
        dayVal D = sentinelNTD) ∧
      sentinelNTD ≠ "N/A") :=
  ⟨by decide, by decide, rfl,
   get_indicators_window demoStore demoReg "ACME" "close" "2024-01-08" 1
     ⟨2024, 1, 8⟩ demoOut (by decide) (by decide) rfl⟩

/-- C6: the indicator engine fetches history over exactly
`[currDate - lookBackDays - 200 days, currDate]` — its result depends on
the store only through that one query — and fails with the no-data error
precisely when that fetch is empty; every day in the output window is at
least `windowStart = currDate - lookBackDays`, so warm-up days never
appear in the report. -/
theorem get_indicators_fetch_window (st : Store) (reg : Registry)
    (sym ind cd : String) (k : ℕ) (curr : Date)
    (h1 : parseYmd cd = some curr)
    (hw : 0 < (subDays (subDays curr k) 200).y) :
    (get_indicators st reg sym ind cd k = .error .noData ↔
      (query_ohlcv st sym (dateStr (subDays (subDays curr k) 200)) cd).rows = []) ∧
    (∀ st' : Store,
      query_ohlcv st sym (dateStr (subDays (subDays curr k) 200)) cd =
        query_ohlcv st' sym (dateStr (subDays (subDays curr k) 200)) cd →
      get_indicators st reg sym ind cd k = get_indicators st' reg sym ind cd k) ∧
    ∀ D ∈ windowDays curr k, dateLe (subDays curr k) D := by
  have hy : 0 < (subDays curr k).y := y_pos_up (subDays curr k) 200 hw
  refine ⟨?_, ?_, ?_⟩
  · rw [get_indicators, h1]
    simp only
    constructor
    · intro h
      by_cases hemp :
          (query_ohlcv st sym (dateStr (subDays (subDays curr k) 200)) cd).rows.isEmpty
      · exact List.isEmpty_eq_true.mp hemp
      · rw [if_neg (by simp [hemp])] at h
        cases hlr : lookupReg reg ind with
        | none => rw [hlr] at h; cases h
        | some f => rw [hlr] at h; cases h
    · intro h
      rw [if_pos (by simp [h])]
  · intro st' hq
    rw [get_indicators, get_indicators, h1]
    simp only
    rw [hq]
  · intro D hD
    obtain ⟨i, hi, rfl⟩ := List.mem_map.mp hD
    rw [List.mem_range] at hi
    exact iterate_dateLe_of_le curr i k (by omega) hy

set_option maxRecDepth 100000 in
/-- C6 witness. -/
theorem get_indicators_fetch_window_witness :
    parseYmd "2024-01-08" = some ⟨2024, 1, 8⟩ ∧
    0 < (subDays (subDays ⟨2024, 1, 8⟩ 1) 200).y ∧
    ((get_indicators demoStore demoReg "ACME" "close" "2024-01-08" 1 = .error .noData ↔
      (query_ohlcv demoStore "ACME"
        (dateStr (subDays (subDays ⟨2024, 1, 8⟩ 1) 200)) "2024-01-08").rows = []) ∧
    (∀ st' : Store,
      query_ohlcv demoStore "ACME"
        (dateStr (subDays (subDays ⟨2024, 1, 8⟩ 1) 200)) "2024-01-08" =
        query_ohlcv st' "ACME"
          (dateStr (subDays (subDays ⟨2024, 1, 8⟩ 1) 200)) "2024-01-08" →
      get_indicators demoStore demoReg "ACME" "close" "2024-01-08" 1 =
        get_indicators st' demoReg "ACME" "close" "2024-01-08" 1) ∧
    ∀ D ∈ windowDays ⟨2024, 1, 8⟩ 1, dateLe (subDays ⟨2024, 1, 8⟩ 1) D) :=
  ⟨by decide, by decide,
   get_indicators_fetch_window demoStore demoReg "ACME" "close" "2024-01-08" 1
     ⟨2024, 1, 8⟩ (by decide) (by decide)⟩

/-- C7: a request for an indicator name with no registered formula fails
with the unsupported-indicator error — not an empty or partial report —
whenever the ticker has non-empty stored history in the fetched range.
The registry models the borrowed `stockstats` library per spec §9; an
unregistered name makes `ss_df[indicator]` raise. -/
theorem get_indicators_unsupported (st : Store) (reg : Registry)
    (sym ind cd : String) (k : ℕ) (curr : Date)
    (h1 : parseYmd cd = some curr)
    (hne : (query_ohlcv st sym (dateStr (subDays (subDays curr k) 200)) cd).rows ≠ [])
    (hreg : lookupReg reg ind = none) :
    get_indicators st reg sym ind cd k = .error .unsupportedIndicator := by
  rw [get_indicators, h1]
  simp only
  rw [if_neg (by simp [hne]), hreg]

set_option maxRecDepth 100000 in
/-- C7 witness: the demo store has history, but the registry is empty. -/
theorem get_indicators_unsupported_witness :
    parseYmd "2024-01-08" = some ⟨2024, 1, 8⟩ ∧
    (query_ohlcv demoStore "ACME"
      (dateStr (subDays (subDays ⟨2024, 1, 8⟩ 0) 200)) "2024-01-08").rows ≠ [] ∧
    lookupReg [] "macd" = none ∧
    get_indicators demoStore [] "ACME" "macd" "2024-01-08" 0 =
      .error .unsupportedIndicator :=
  ⟨by decide, by decide, rfl,
   get_indicators_unsupported demoStore [] "ACME" "macd" "2024-01-08" 0
     ⟨2024, 1, 8⟩ (by decide) (by decide) rfl⟩

/-- C8: the raw-extract path emits each Open/High/Low/Close value rounded
to exactly two decimal places (`round2`, a multiple of `1/100`); the
indicator path emits each numeric value as the exact rendering of the
value the formula computed, with no rounding applied; and the two
non-numeric sentinels are distinguishable from every rendered numeric
string (a rendered value contains only digits, `-` and `/`). -/
theorem rounding_contract :
    (∀ (st : Store) (sym s e : String) (df2 : DataFrame),
      get_stock_data st sym s e = .ok df2 →
      df2.rows = (query_ohlcv st sym s e).rows.map roundRow ∧
      ∀ r ∈ df2.rows,
        isCent r.open_ ∧ isCent r.high ∧ isCent r.low ∧ isCent r.close) ∧
    (∀ (st : Store) (reg : Registry) (sym ind cd : String) (k : ℕ)
        (curr : Date) (out : String),
      parseYmd cd = some curr →
      0 < (subDays (subDays curr k) 200).y →
      get_indicators st reg sym ind cd k = .ok out →
      ∃ dayVal : Date → String,
        out = "## " ++ ind ++ " values from " ++ dateStr (subDays curr k)
            ++ " to " ++ cd ++ ":\n\n"
            ++ concatLines ((windowDays curr k).map
                (fun D => dateStr D ++ ": " ++ dayVal D ++ "\n"))
            ++ "\n\nSource: TradingView webhook data" ∧
        ∀ D ∈ windowDays curr k,
          dayVal D = sentinelNTD ∨ dayVal D = "N/A" ∨
          ∃ (f : Formula) (v : ℚ), lookupReg reg ind = some f ∧
            some v ∈ f.val (query_ohlcv st sym
              (dateStr (subDays (subDays curr k) 200)) cd).rows ∧
            dayVal D = renderVal v) ∧
    (∀ q : ℚ, renderVal q ≠ "N/A" ∧ renderVal q ≠ sentinelNTD) ∧
    ¬ ("N/A" : String) = sentinelNTD := by
  refine ⟨?_, ?_, fun q => ⟨renderVal_ne_NA q, renderVal_ne_sentinelNTD q⟩, by decide⟩
  · intro st sym s e df2 hok
    rw [get_stock_data] at hok
    by_cases hs : (parseYmd s).isNone
    · rw [if_pos hs] at hok; cases hok
    · rw [if_neg hs] at hok
      by_cases he : (parseYmd e).isNone
      · rw [if_pos he] at hok; cases hok
      · rw [if_neg he] at hok
        simp only at hok
        by_cases hemp : (query_ohlcv st sym s e).rows.isEmpty
        · rw [if_pos hemp] at hok; cases hok
        · rw [if_neg hemp] at hok
          have hdf : df2 = ⟨(query_ohlcv st sym s e).cols,
              (query_ohlcv st sym s e).rows.map roundRow⟩ :=
            ((Except.ok.injEq _ _).mp hok).symm
          subst hdf
          refine ⟨rfl, ?_⟩
          intro r hr
          obtain ⟨r0, _, hr0⟩ := List.mem_map.mp hr
          rw [← hr0]
          exact ⟨isCent_round2 _, isCent_round2 _, isCent_round2 _, isCent_round2 _⟩
  · intro st reg sym ind cd k curr out h1 hw hok
    have hy : 0 < (subDays curr k).y := y_pos_up (subDays curr k) 200 hw
    obtain ⟨f, hreg, hne, hout⟩ :=
      get_indicators_ok_elim st reg sym ind cd k curr out h1 hok
    set pairs :=
      ((((query_ohlcv st sym (dateStr (subDays (subDays curr k) 200)) cd).rows).zip
        (f.val (query_ohlcv st sym (dateStr (subDays (subDays curr k) 200)) cd).rows)).map
        (fun rv => (toDateStr rv.1.timestamp, renderOpt rv.2))) with hpairs
    refine ⟨fun D => (dictGet pairs (dateStr D)).getD sentinelNTD, ?_, ?_⟩
    · rw [hout, windowDays, List.map_map]
      congr 1
      congr 1
      exact indLoop_unroll _ k curr hy
    · intro D hD
      cases hdg : dictGet pairs (dateStr D) with
      | none => left; simp only [hdg, Option.getD_none]
      | some val =>
        obtain ⟨pr, hprmem, _, hpr2⟩ := dictGet_some hdg
        rw [hpairs] at hprmem
        obtain ⟨rv, hrvmem, hrveq⟩ := List.mem_map.mp hprmem
        have hval : val = renderOpt rv.2 := by rw [← hpr2, ← hrveq]
        cases hov : rv.2 with
        | none =>
          right; left
          show (dictGet pairs (dateStr D)).getD sentinelNTD = "N/A"
          rw [hdg]
          show val = "N/A"
          rw [hval, hov]
          rfl
        | some v =>
          right; right
          refine ⟨f, v, hreg, ?_, ?_⟩
          · have h2 : rv.2 ∈
                f.val (query_ohlcv st sym
                  (dateStr (subDays (subDays curr k) 200)) cd).rows := by
              obtain ⟨r0, ov⟩ := rv
              exact (List.of_mem_zip hrvmem).2
            rw [hov] at h2
            exact h2
          · show (dictGet pairs (dateStr D)).getD sentinelNTD = renderVal v
            rw [hdg]
            show val = renderVal v
            rw [hval, hov]
            rfl

/-- The rounded DataFrame of the demo extract. -/
def demoRounded : DataFrame :=
  match get_stock_data demoStore "ACME" "2024-01-01" "2024-01-31" with
  | .ok df => df
  | .error _ => ⟨[], []⟩

set_option maxRecDepth 100000 in
/-- C8 witness. -/
theorem rounding_contract_witness :
    get_stock_data demoStore "ACME" "2024-01-01" "2024-01-31" = .ok demoRounded ∧
    demoRounded.rows =
      (query_ohlcv demoStore "ACME" "2024-01-01" "2024-01-31").rows.map roundRow ∧
    (∀ r ∈ demoRounded.rows,
      isCent r.open_ ∧ isCent r.high ∧ isCent r.low ∧ isCent r.close) ∧
    renderVal (3/2) ≠ "N/A" ∧ renderVal (3/2) ≠ sentinelNTD :=
  ⟨rfl,
   (rounding_contract.1 demoStore "ACME" "2024-01-01" "2024-01-31" demoRounded rfl).1,
   (rounding_contract.1 demoStore "ACME" "2024-01-01" "2024-01-31" demoRounded rfl).2,
   (rounding_contract.2.2.1 (3/2)).1,
   (rounding_contract.2.2.1 (3/2)).2⟩

/-- C9 counterexample payload: every required field is present under its
primary name, but `open` is `0`, which Python `or` treats as missing. -/
def cexPayload : Payload :=
  [("ticker", .s "BTCUSD"), ("time", .s "2024-01-05"), ("open", .n 0),
   ("high", .n 1), ("low", .n 1), ("close", .n 1)]

/-- C9 counterexample: all six required fields are directly resolvable in
the payload (each key is present), yet `receive_raw` rejects the request
with the error response and inserts nothing, because the `or`-chains drop
the present-but-falsy `open = 0`.  This refutes "accepts whenever each
field can be resolved" and the only-if half of "errors iff some field
cannot be resolved". -/
theorem receive_raw_falsy_cex :
    jGet cexPayload "ticker" = some (.s "BTCUSD") ∧
    jGet cexPayload "time" = some (.s "2024-01-05") ∧
    jGet cexPayload "open" = some (.n 0) ∧
    jGet cexPayload "high" = some (.n 1) ∧
    jGet cexPayload "low" = some (.n 1) ∧
    jGet cexPayload "close" = some (.n 1) ∧
    receive_raw [] cexPayload = ([], .errResponse) := by
  refine ⟨rfl, rfl, rfl, rfl, rfl, rfl, ?_⟩
  decide

/-- C9 amended: `receive_raw` answers the error response exactly when some
required field's `or`-chain yields no *truthy* value (a present-but-falsy
value such as `0` or `""` counts as missing); when every chain resolves
truthy it inserts the bar through `insert_bar` (or dies with an uncaught
coercion exception, which is not the error response); and a wholly absent
volume defaults to `0`. -/
theorem receive_raw_truthy_iff (st : Store) (p : Payload) :
    ((receive_raw st p).2 = .errResponse ↔ requiredResolved p = false) ∧
    (requiredResolved p = true →
      (receive_raw st p).2 = .exn ∨
      ∃ tk ts o h l c v, receive_raw st p =
        (insert_bar st tk ts o h l c v, .okResp tk ts)) ∧
    (jGet p "volume" = none → jGet p "v" = none → resolveVolume p = .n 0) := by
  refine ⟨?_, ?_, ?_⟩
  · by_cases hreq : requiredResolved p
    · rw [receive_raw, if_neg (by simp [hreq]), hreq]
      split <;> (try split) <;> simp
    · have hfalse : requiredResolved p = false := by
        cases h : requiredResolved p
        · rfl
        · exact absurd h hreq
      rw [receive_raw, if_pos (by simp [hfalse])]
      simp [hfalse]
  · intro hreq
    rw [receive_raw, if_neg (by simp [hreq])]
    split
    · split
      · right; exact ⟨_, _, _, _, _, _, _, rfl⟩
      · left; rfl
    · left; rfl
  · intro hv hv2
    rw [resolveVolume, hv, hv2]
    rfl

/-- A payload using only the synonym field names, with volume absent. -/
def synPayload : Payload :=
  [("symbol", .s "ETHUSD"), ("date", .s "2024-02-01"), ("o", .n 2),
   ("h", .n 3), ("l", .n 1), ("c", .n 2)]

/-- C9 amended witness: a synonym-only payload resolves truthy and is
inserted. -/
theorem receive_raw_truthy_iff_witness :
    requiredResolved synPayload = true ∧
    ((receive_raw [] synPayload).2 = .errResponse ↔
      requiredResolved synPayload = false) ∧
    ((receive_raw [] synPayload).2 = .exn ∨
      ∃ tk ts o h l c v, receive_raw [] synPayload =
        (insert_bar [] tk ts o h l c v, .okResp tk ts)) ∧
    (jGet synPayload "volume" = none → jGet synPayload "v" = none →
      resolveVolume synPayload = .n 0) :=
  ⟨by decide,
   (receive_raw_truthy_iff [] synPayload).1,
   (receive_raw_truthy_iff [] synPayload).2.1 (by decide),
   (receive_raw_truthy_iff [] synPayload).2.2⟩
